import Mathlib

/-!
Shallow embedding of the Henvdall core (src/henvdall): the .env line parser,
the value validator (placeholder heuristic, int/url validation, hint
extraction), the sync orchestration and the audit classifier.  Machine
strings are Lean `String`s manipulated through their `List Char` data;
Python regular-expression searches are compiled by hand into structural
recursions with the exact backtracking semantics of the patterns involved.
-/

/-- ASCII whitespace as recognised by Python `str.strip()` and `\s`. -/
def isPyWs (c : Char) : Bool :=
  c = ' ' || c = '\t' || c = '\n' || c = '\r' || c = '\x0b' || c = '\x0c'

/-- Python `\w` restricted to ASCII: letters, digits, underscore. -/
def isWordAscii (c : Char) : Bool :=
  c.isAlpha || c.isDigit || c = '_'

/-- First character of an env key: `[A-Za-z_]`. -/
def isKeyStart (c : Char) : Bool :=
  c.isAlpha || c = '_'

/-- Drop leading Python whitespace (Python `lstrip`). -/
def lstripWs (cs : List Char) : List Char :=
  cs.dropWhile isPyWs

/-- Drop trailing Python whitespace (Python `rstrip`). -/
def rstripWs (cs : List Char) : List Char :=
  (cs.reverse.dropWhile isPyWs).reverse

/-- Python `str.strip()`. -/
def stripWs (cs : List Char) : List Char :=
  rstripWs (lstripWs cs)

/-- ASCII lowercasing of a character list (Python `str.lower()`). -/
def lowerChars (cs : List Char) : List Char :=
  cs.map Char.toLower

/-- Does `text` start with `pat`? -/
def startsWithL : List Char → List Char → Bool
  | [], _ => true
  | _ :: _, [] => false
  | p :: ps, c :: cs => p = c && startsWithL ps cs

/-- Substring search: does `pat` occur contiguously inside `text`? -/
def containsSub (pat : List Char) : List Char → Bool
  | [] => startsWithL pat []
  | c :: cs => startsWithL pat (c :: cs) || containsSub pat cs

/-- Regex fragment `.*here`: a gap of non-newline characters followed by
`here` (the dot of Python `re` does not match a newline without DOTALL). -/
def findHereGap : List Char → Bool
  | [] => false
  | c :: cs => startsWithL "here".data (c :: cs) || (decide (c ≠ '\n') && findHereGap cs)

/-- `your[_\s].*here` anchored at the head of `cs` (on lowered text). -/
def yourHereAt (cs : List Char) : Bool :=
  startsWithL "your".data cs &&
    (match cs.drop 4 with
     | [] => false
     | d :: ds => (d = '_' || isPyWs d) && findHereGap ds)

/-- `re.search` of `(?i)your[_\s].*here`, run on lowered text. -/
def searchYourHere : List Char → Bool
  | [] => false
  | c :: cs => yourHereAt (c :: cs) || searchYourHere cs

/-- `w1[_\s]?w2` anchored at the head of `cs`. -/
def sepOptAt (w1 w2 : List Char) (cs : List Char) : Bool :=
  startsWithL w1 cs &&
    (startsWithL w2 (cs.drop w1.length) ||
      (match cs.drop w1.length with
       | [] => false
       | d :: ds => (d = '_' || isPyWs d) && startsWithL w2 ds))

/-- `re.search` of `w1[_\s]?w2`, run on lowered text. -/
def searchSepOpt (w1 w2 : List Char) : List Char → Bool
  | [] => false
  | c :: cs => sepOptAt w1 w2 (c :: cs) || searchSepOpt w1 w2 cs

/-- `re.search` of the anchored pattern `^lit$` (no MULTILINE): the whole
value equals `lit`, or equals `lit` followed by one final newline. -/
def anchoredLit (lit : String) (v : String) : Bool :=
  v = lit || v = lit ++ "\n"

/-- The eleven matchers of `EnvValueValidator.PLACEHOLDER_PATTERNS`, in
source order, each as `re.search` of the corresponding pattern. -/
def PLACEHOLDER_PATTERNS : List (String → Bool) :=
  [ fun v => searchYourHere (lowerChars v.data),
    fun v => containsSub "placeholder".data (lowerChars v.data),
    fun v => searchSepOpt "change".data "me".data (lowerChars v.data),
    fun v => searchSepOpt "replace".data "this".data (lowerChars v.data),
    fun v => containsSub "todo".data (lowerChars v.data),
    fun v => containsSub "xxx".data (lowerChars v.data),
    fun v => anchoredLit "admin123" v,
    fun v => anchoredLit "password123" v,
    fun v => anchoredLit "test123" v,
    fun v => anchoredLit "secret" v,
    fun v => anchoredLit "changeme" v ]

/-- `EnvValueValidator.is_placeholder`: empty or whitespace-only, or some
pattern of `PLACEHOLDER_PATTERNS` matches. -/
def is_placeholder (v : String) : Bool :=
  (stripWs v.data).isEmpty || PLACEHOLDER_PATTERNS.any (fun p => p v)

/-- `w1[_ ]?w2` anchored at the head of `cs`: the separator class is exactly
underscore-or-space, the class written in the specification text. -/
def sepSpaceAt (w1 w2 : List Char) (cs : List Char) : Bool :=
  startsWithL w1 cs &&
    (startsWithL w2 (cs.drop w1.length) ||
      (match cs.drop w1.length with
       | [] => false
       | d :: ds => (d = '_' || d = ' ') && startsWithL w2 ds))

/-- Substring search for `w1[_ ]?w2`, run on lowered text. -/
def searchSepSpace (w1 w2 : List Char) : List Char → Bool
  | [] => false
  | c :: cs => sepSpaceAt w1 w2 (c :: cs) || searchSepSpace w1 w2 cs

/-- The placeholder predicate exactly as the specification states it:
empty or whitespace-only, or a case-insensitive substring search finds one
of the substring patterns (with `[_ ]` separators as written), or the whole
value exactly equals one of the five literals. -/
def claimPlaceholder (v : String) : Bool :=
  (stripWs v.data).isEmpty ||
  searchYourHere (lowerChars v.data) ||
  containsSub "placeholder".data (lowerChars v.data) ||
  searchSepSpace "change".data "me".data (lowerChars v.data) ||
  searchSepSpace "replace".data "this".data (lowerChars v.data) ||
  containsSub "todo".data (lowerChars v.data) ||
  containsSub "xxx".data (lowerChars v.data) ||
  v == "admin123" || v == "password123" || v == "test123" ||
  v == "secret" || v == "changeme"

/-- The amended placeholder predicate: as `claimPlaceholder`, but the
optional separator class is underscore-or-whitespace (the source's `[_\s]`),
and each exact-match literal also accepts a single trailing newline (the
`$` anchor of Python `re.search` without MULTILINE). -/
def specPlaceholderAmended (v : String) : Bool :=
  (stripWs v.data).isEmpty ||
  searchYourHere (lowerChars v.data) ||
  containsSub "placeholder".data (lowerChars v.data) ||
  searchSepOpt "change".data "me".data (lowerChars v.data) ||
  searchSepOpt "replace".data "this".data (lowerChars v.data) ||
  containsSub "todo".data (lowerChars v.data) ||
  containsSub "xxx".data (lowerChars v.data) ||
  anchoredLit "admin123" v || anchoredLit "password123" v ||
  anchoredLit "test123" v || anchoredLit "secret" v || anchoredLit "changeme" v

/-- `EnvEntry`: one parsed key/value/comment triple (parser.py). -/
structure EnvEntry where
  key : String
  value : String
  comment : Option String
deriving Repr, DecidableEq

/-- Split a list at the first occurrence of `sep`: `some (before, after)`
with `cs = before ++ sep :: after` and `sep` not in `before`, or `none`. -/
def splitFirst (sep : Char) : List Char → Option (List Char × List Char)
  | [] => none
  | c :: cs =>
    if c = sep then some ([], cs)
    else
      match splitFirst sep cs with
      | some (a, b) => some (c :: a, b)
      | none => none

/-- Is the value wrapped in one matching pair of double or single quotes
(and of length at least 2)?  The test of `EnvFileParser._unquote_value`. -/
def isQuoteWrapped (cs : List Char) : Bool :=
  match cs.head?, cs.getLast? with
  | some a, some b =>
    2 ≤ cs.length && ((a = '"' && b = '"') || (a = '\'' && b = '\''))
  | _, _ => false

/-- `EnvFileParser._unquote_value`: strip exactly one outer pair of
matching quotes when present. -/
def unquoteChars (cs : List Char) : List Char :=
  if isQuoteWrapped cs then (cs.drop 1).dropLast else cs

/-- The value/comment split performed by the tail
`([^#]*?)(?:\s*#\s*(.*))?$` of `ENV_LINE_PATTERN`: no `#` means the whole
rest is the value group; otherwise the value group is everything before the
first `#` with its trailing whitespace given to the `\s*` before `#`, and
the comment group is everything after the `#` minus its leading whitespace. -/
def splitHash (rest : List Char) : List Char × Option (List Char) :=
  match splitFirst '#' rest with
  | none => (rest, none)
  | some (a, b) => (rstripWs a, some (b.dropWhile isPyWs))

/-- One line through `ENV_LINE_PATTERN` plus the per-line processing of
`EnvFileParser.parse_file`: skip blank and comment-only lines, match
`^\s*([A-Za-z_][A-Za-z0-9_]*)\s*=\s*([^#]*?)(?:\s*#\s*(.*))?$` (all the
regex's backtracking is settled deterministically for this pattern), then
strip and unquote the value and strip the comment, an empty comment group
becoming absent. -/
def parseLine (line : List Char) : Option EnvEntry :=
  match line.dropWhile isPyWs with
  | [] => none
  | c :: cs =>
    if isKeyStart c then
      match ((c :: cs).dropWhile isWordAscii).dropWhile isPyWs with
      | [] => none
      | d :: r2 =>
        if d = '=' then
          some { key := ⟨(c :: cs).takeWhile isWordAscii⟩,
                 value := ⟨unquoteChars (stripWs (splitHash (r2.dropWhile isPyWs)).1)⟩,
                 comment :=
                   match (splitHash (r2.dropWhile isPyWs)).2 with
                   | none => none
                   | some g3 => if g3.isEmpty then none else some ⟨rstripWs g3⟩ }
        else none
    else none

/-- Split text into lines at newline characters (file line iteration with
the trailing newline removed from each line). -/
def splitLines : List Char → List (List Char)
  | [] => [[]]
  | c :: cs =>
    if c = '\n' then [] :: splitLines cs
    else
      match splitLines cs with
      | l :: ls => (c :: l) :: ls
      | [] => [[c]]

/-- Insertion with Python-dict semantics: an existing key keeps its
position and gets the new entry, a new key is appended at the end. -/
def insertEntry (m : List (String × EnvEntry)) (k : String) (e : EnvEntry) :
    List (String × EnvEntry) :=
  match m with
  | [] => [(k, e)]
  | (k', e') :: rest =>
    if k' = k then (k, e) :: rest else (k', e') :: insertEntry rest k e

/-- `EnvFileParser.parse_file` on file contents: parse line by line into an
insertion-ordered map. -/
def parse_file (text : String) : List (String × EnvEntry) :=
  (splitLines text.data).foldl
    (fun m line =>
      match parseLine line with
      | some e => insertEntry m e.key e
      | none => m)
    []

/-- Does the value force quoting in `EnvFileParser.format_entry`: a space
or one of `#`, `$`, `\`? -/
def needsQuoting (v : String) : Bool :=
  v.data.any (fun c => c = ' ' || c = '#' || c = '$' || c = '\\')

/-- `EnvFileParser.format_entry`: `KEY=value`, the value wrapped verbatim
in double quotes when it needs quoting. -/
def format_entry (k v : String) : String :=
  if needsQuoting v then k ++ "=" ++ "\"" ++ v ++ "\"" else k ++ "=" ++ v

/-- `ValidationResult` of validator.py. -/
structure ValidationResult where
  is_valid : Bool
  error_message : Option String
deriving Repr, DecidableEq

/-- Tail of the literal accepted by Python `int(str)` after its first
digit: digits in which a single underscore may stand between two digits. -/
def pyIntTail : List Char → Bool
  | [] => true
  | c :: cs =>
    if c = '_' then
      match cs with
      | [] => false
      | d :: ds => d.isDigit && pyIntTail ds
    else c.isDigit && pyIntTail cs

/-- The digit core accepted by Python `int(str)`: nonempty, starting with a
digit, underscores only singly and between digits. -/
def pyIntCore : List Char → Bool
  | [] => false
  | c :: cs => c.isDigit && pyIntTail cs

/-- Drop one optional leading sign. -/
def dropSign : List Char → List Char
  | [] => []
  | c :: r => if c = '+' || c = '-' then r else c :: r

/-- Success predicate of Python `int(value)`: the value, after stripping
surrounding whitespace, is an optional sign followed by the digit core. -/
def pyIntAccepts (v : String) : Bool :=
  pyIntCore (dropSign (stripWs v.data))

/-- `EnvValueValidator.validate_int`: valid when Python `int(value)`
succeeds, otherwise invalid with the fixed message. -/
def validate_int (v : String) : ValidationResult :=
  if pyIntAccepts v then { is_valid := true, error_message := none }
  else { is_valid := false,
         error_message := some ("'" ++ v ++ "' is not a valid integer") }

/-- Characters allowed after the first letter of a URL scheme. -/
def isSchemeChar (c : Char) : Bool :=
  c.isAlpha || c.isDigit || c = '+' || c = '-' || c = '.'

/-- The (scheme, rest) split of `urllib.parse.urlsplit`: the part before
the first colon is the scheme when it starts with a letter and continues
with scheme characters; otherwise there is no scheme. -/
def urlSchemeSplit (cs : List Char) : List Char × List Char :=
  match splitFirst ':' cs with
  | some (a, b) =>
    match a with
    | [] => ([], cs)
    | c :: rest =>
      if c.isAlpha && rest.all isSchemeChar then (lowerChars (c :: rest), b)
      else ([], cs)
  | none => ([], cs)

/-- The netloc extraction of `urllib.parse.urlsplit`: present only after a
leading `//`, extending to the first `/`, `?` or `#`; a netloc with an
unmatched square bracket raises `ValueError("Invalid IPv6 URL")`. -/
def urlNetloc (cs : List Char) : Except String (List Char) :=
  if startsWithL "//".data cs then
    let netloc := (cs.drop 2).takeWhile (fun c => !(c = '/' || c = '?' || c = '#'))
    if (netloc.contains '[' && !netloc.contains ']') ||
       (netloc.contains ']' && !netloc.contains '[') then
      Except.error "Invalid IPv6 URL"
    else Except.ok netloc
  else Except.ok []

/-- The fields of `urllib.parse.urlparse` that validator.py looks at:
scheme and netloc, or the text of the raised exception. -/
def urlparseParts (v : String) : Except String (List Char × List Char) :=
  let s := urlSchemeSplit v.data
  match urlNetloc s.2 with
  | Except.ok n => Except.ok (s.1, n)
  | Except.error e => Except.error e

/-- `EnvValueValidator.validate_url`: valid when both scheme and netloc are
nonempty; a parse exception is caught and embedded in the message. -/
def validate_url (v : String) : ValidationResult :=
  match urlparseParts v with
  | Except.ok p =>
    if !p.1.isEmpty && !p.2.isEmpty then { is_valid := true, error_message := none }
    else { is_valid := false,
           error_message :=
             some ("'" ++ v ++ "' is not a valid URL (must include scheme and domain)") }
  | Except.error e =>
    { is_valid := false,
      error_message := some ("'" ++ v ++ "' is not a valid URL: " ++ e) }

/-- `EnvValueValidator.validate_value`: no hint or an empty hint is always
valid; otherwise dispatch on the lowercased, stripped hint, unknown hints
being always valid. -/
def validate_value (v : String) (validation_type : Option String) : ValidationResult :=
  match validation_type with
  | none => { is_valid := true, error_message := none }
  | some t =>
    if t.data.isEmpty then { is_valid := true, error_message := none }
    else
      let t' := stripWs (lowerChars t.data)
      if t' = "int".data then validate_int v
      else if t' = "url".data then validate_url v
      else { is_valid := true, error_message := none }

/-- `re.search` of `\((\w+)\)`: the contents of the first parenthesized
nonempty run of word characters immediately closed by `)`. -/
def findParenToken : List Char → Option (List Char)
  | [] => none
  | c :: cs =>
    if c = '(' then
      match cs.takeWhile isWordAscii with
      | [] => findParenToken cs
      | w :: ws =>
        match cs.drop (w :: ws).length with
        | [] => findParenToken cs
        | d :: _ => if d = ')' then some (w :: ws) else findParenToken cs
    else findParenToken cs

/-- `EnvValueValidator.extract_validation_type`: absent comment (or the
falsy empty comment) gives none; otherwise the raw contents of the first
`(word)` token, unchanged in case. -/
def extract_validation_type (comment : Option String) : Option String :=
  match comment with
  | none => none
  | some s =>
    if s.data.isEmpty then none
    else (findParenToken s.data).map (fun w => ⟨w⟩)

/-- Dict-style key membership on an entry map. -/
def containsKey (m : List (String × EnvEntry)) (k : String) : Bool :=
  m.any (fun p => p.1 == k)

/-- Dict-style lookup on an entry map. -/
def lookupEntry (m : List (String × EnvEntry)) (k : String) : Option EnvEntry :=
  (m.find? (fun p => p.1 == k)).map Prod.snd

/-- `EnvSyncManager._find_missing_keys`: keys of the template map, in
order, that are not keys of the actual map. -/
def find_missing_keys (example_entries env_entries : List (String × EnvEntry)) :
    List String :=
  (example_entries.map Prod.fst).filter (fun k => !containsKey env_entries k)

/-- The validation hint the sync workflow derives for a key: the template
entry's comment through `extract_validation_type`. -/
def hintFor (example_entries : List (String × EnvEntry)) (k : String) : Option String :=
  extract_validation_type ((lookupEntry example_entries k).bind (fun e => e.comment))

/-- `EnvSyncManager._prompt_for_value`: the re-prompting loop returns the
first offered value that validates; `none` models a collaborator that never
offers a valid value (the loop never returns). -/
def prompt_for_value (attempts : List String) (validation_type : Option String) :
    Option String :=
  attempts.find? (fun v => (validate_value v validation_type).is_valid)

/-- `EnvSyncManager._collect_values`: one prompted value per missing key,
in order; `none` when some key's prompt loop never returns. -/
def collect_values (missing : List String)
    (example_entries : List (String × EnvEntry))
    (responses : String → List String) : Option (List (String × String)) :=
  match missing with
  | [] => some []
  | k :: ks =>
    match prompt_for_value (responses k) (hintFor example_entries k),
          collect_values ks example_entries responses with
    | some v, some rest => some ((k, v) :: rest)
    | _, _ => none

/-- The collaborator-facing inputs of one `EnvSyncManager.sync` run: file
existence, the two parsed maps, the confirmation answer, and the stream of
values the prompter offers for each key. -/
structure SyncInput where
  example_exists : Bool
  example_entries : List (String × EnvEntry)
  env_entries : List (String × EnvEntry)
  env_exists : Bool
  confirm : Bool
  responses : String → List String

/-- The externally visible effects of one `EnvSyncManager.sync` run:
whether the backup copy was made, the key/value pairs appended to the
actual file (none when nothing was appended), and the returned flag. -/
structure SyncOutcome where
  backup_made : Bool
  appended : Option (List (String × String))
  changed : Bool
deriving Repr, DecidableEq

/-- `EnvSyncManager.sync`: missing template file, no missing keys, or a
declined confirmation all end the run with no effects and `False`;
otherwise the backup is made (only when the actual file exists), values are
collected, and the collected entries are appended.  The branch in which
some prompt loop never returns is modelled with `appended = none`
(the backup has already been made at that point). -/
def sync (inp : SyncInput) : SyncOutcome :=
  if !inp.example_exists then ⟨false, none, false⟩
  else
    let missing := find_missing_keys inp.example_entries inp.env_entries
    if missing.isEmpty then ⟨false, none, false⟩
    else if !inp.confirm then ⟨false, none, false⟩
    else
      match collect_values missing inp.example_entries inp.responses with
      | some pairs => ⟨inp.env_exists, some pairs, true⟩
      | none => ⟨inp.env_exists, none, false⟩

/-- `EnvAuditor._get_placeholder_reason`: empty or whitespace-only values,
then values matched by some placeholder pattern, then the final branch. -/
def get_placeholder_reason (v : String) : String :=
  if (stripWs v.data).isEmpty then "Empty value"
  else if PLACEHOLDER_PATTERNS.any (fun p => p v) then "Contains placeholder text"
  else "Suspicious value"

/-- `EnvAuditor._find_placeholder_values`: the flagged (key, value, reason)
triples, in map order. -/
def find_placeholder_values (entries : List (String × EnvEntry)) :
    List (String × String × String) :=
  (entries.filter (fun p => is_placeholder p.2.value)).map
    (fun p => (p.1, p.2.value, get_placeholder_reason p.2.value))

/-- Split a character list at every underscore. -/
def splitUnderscore : List Char → List (List Char)
  | [] => [[]]
  | c :: cs =>
    if c = '_' then [] :: splitUnderscore cs
    else
      match splitUnderscore cs with
      | g :: gs => (c :: g) :: gs
      | [] => [[c]]

/-- The integer syntax exactly as the claim states it: an optional leading
sign followed by a nonempty run of decimal digits, nothing else. -/
def specIntClaim (v : String) : Bool :=
  !(dropSign v.data).isEmpty && (dropSign v.data).all Char.isDigit

/-- The amended integer syntax: after stripping surrounding whitespace, an
optional leading sign and then digit groups separated by single
underscores — every underscore-separated group nonempty and all digits. -/
def specIntAmended (v : String) : Bool :=
  (splitUnderscore (dropSign (stripWs v.data))).all
    (fun g => !g.isEmpty && g.all Char.isDigit)

/-- Does a `(word)` token start at offset `i` of `cs`? -/
def tokenAt (cs : List Char) (i : Nat) : Option (List Char) :=
  match cs.drop i with
  | [] => none
  | c :: rest =>
    if c = '(' then
      match rest.takeWhile isWordAscii with
      | [] => none
      | w :: ws =>
        match rest.drop (w :: ws).length with
        | [] => none
        | d :: _ => if d = ')' then some (w :: ws) else none
    else none

/-- The first `(word)` token of a comment, by scanning offsets from the
left — the specification's description of hint extraction. -/
def firstParenToken (cs : List Char) : Option (List Char) :=
  (List.range cs.length).findSome? (tokenAt cs)

/-- A well-formed env key: `[A-Za-z_][A-Za-z0-9_]*`. -/
def keyWellFormed (k : String) : Bool :=
  match k.data with
  | [] => false
  | c :: cs => isKeyStart c && cs.all isWordAscii

/-- Sample template map for the witnesses: two keys, the second carrying
an int hint. -/
def sampleTemplate : List (String × EnvEntry) :=
  [("API_KEY", ⟨"API_KEY", "your_key_here", none⟩),
   ("PORT", ⟨"PORT", "3000", some "(int)"⟩)]

/-- Sample actual map for the witnesses: only the first template key. -/
def sampleActual : List (String × EnvEntry) :=
  [("API_KEY", ⟨"API_KEY", "sk-123", none⟩)]

/-- A sync run whose collaborator confirms and answers `PORT` with an
invalid value first and a valid one second. -/
def sampleSyncRun : SyncInput :=
  { example_exists := true,
    example_entries := sampleTemplate,
    env_entries := sampleActual,
    env_exists := true,
    confirm := true,
    responses := fun _ => ["not_a_number", "8080"] }

/-- A sync run whose collaborator declines the confirmation. -/
def sampleDeclinedRun : SyncInput :=
  { example_exists := true,
    example_entries := sampleTemplate,
    env_entries := sampleActual,
    env_exists := true,
    confirm := false,
    responses := fun _ => ["8080"] }

/-- C1 counterexample: on the value consisting of `change`, a tab and `me`,
`is_placeholder` answers true (the source pattern `change[_\s]?me` lets the
separator be any whitespace character), while the claim's characterisation
— separator underscore or space only — answers false. -/
theorem is_placeholder_claim_counterexample :
    is_placeholder "change\tme" = true ∧ claimPlaceholder "change\tme" = false := by
  decide

/-- C1 amended: `is_placeholder value` is true exactly when value is empty
or whitespace-only, or a case-insensitive substring search finds one of
`your[_\s].*here`, `placeholder`, `change[_\s]?me`, `replace[_\s]?this`,
`todo`, `xxx+`, or the whole value equals one of the five literals
(optionally with one trailing newline); together with the concrete
evaluations listed by the claim. -/
theorem is_placeholder_eq_spec :
    (∀ v : String, is_placeholder v = specPlaceholderAmended v) ∧
    is_placeholder "" = true ∧ is_placeholder "   " = true ∧
    is_placeholder "YOUR_API_KEY_HERE" = true ∧
    is_placeholder "placeholder" = true ∧
    is_placeholder "change_me" = true ∧
    is_placeholder "admin123" = true ∧
    is_placeholder "password123" = true ∧
    is_placeholder "sk-1234567890abcdef" = false ∧
    is_placeholder "postgresql://localhost/db" = false := by
  refine ⟨fun v => ?_, by decide, by decide, by decide, by decide, by decide,
    by decide, by decide, by decide, by decide⟩
  simp [is_placeholder, PLACEHOLDER_PATTERNS, specPlaceholderAmended, Bool.or_assoc]

lemma validate_int_invariant (v : String) :
    (validate_int v).error_message.isSome = !(validate_int v).is_valid := by
  unfold validate_int
  by_cases h : pyIntAccepts v <;> simp [h]

lemma validate_url_invariant (v : String) :
    (validate_url v).error_message.isSome = !(validate_url v).is_valid := by
  unfold validate_url
  cases urlparseParts v with
  | ok p => by_cases h : (!p.1.isEmpty && !p.2.isEmpty) = true <;> simp [h]
  | error e => simp

/-- C9: every `ValidationResult` built by `validate_int`, `validate_url` or
`validate_value` — any value, any hint, absent and unrecognized hints
included — has an error message exactly when it is invalid. -/
theorem validation_result_invariant :
    ∀ (v : String) (hint : Option String),
      (validate_int v).error_message.isSome = !(validate_int v).is_valid ∧
      (validate_url v).error_message.isSome = !(validate_url v).is_valid ∧
      (validate_value v hint).error_message.isSome = !(validate_value v hint).is_valid := by
  intro v hint
  refine ⟨validate_int_invariant v, validate_url_invariant v, ?_⟩
  unfold validate_value
  cases hint with
  | none => simp
  | some t =>
    by_cases h0 : t.data.isEmpty
    · simp [h0]
    · by_cases h1 : stripWs (lowerChars t.data) = "int".data
      · simp [h0, h1, validate_int_invariant v]
      · by_cases h2 : stripWs (lowerChars t.data) = "url".data
        · simp [h0, h1, h2, validate_url_invariant v]
        · simp [h0, h1, h2]

lemma placeholder_reason_of_flagged (v : String) (h : is_placeholder v = true) :
    get_placeholder_reason v = "Empty value" ∨
    get_placeholder_reason v = "Contains placeholder text" := by
  unfold get_placeholder_reason
  by_cases h1 : (stripWs v.data).isEmpty
  · left; simp [h1]
  · right
    have h2 : PLACEHOLDER_PATTERNS.any (fun p => p v) = true := by
      unfold is_placeholder at h
      simpa [h1] using h
    simp [h1, h2]

/-- C8: every issue recorded by the auditor carries the reason
`Empty value` or `Contains placeholder text`; the `Suspicious value`
branch of the classifier is never taken for a flagged value. -/
theorem audit_reason_classified :
    ∀ (entries : List (String × EnvEntry)) (k v r : String),
      (k, v, r) ∈ find_placeholder_values entries →
      r = "Empty value" ∨ r = "Contains placeholder text" := by
  intro entries k v r hm
  unfold find_placeholder_values at hm
  rcases List.mem_map.mp hm with ⟨p, hp, hpe⟩
  rcases List.mem_filter.mp hp with ⟨_, hflag⟩
  cases hpe
  exact placeholder_reason_of_flagged p.2.value hflag

/-- C8 witness: the reason recorded for the flagged value `todo` of the
sample template is one of the two reachable reasons. -/
theorem audit_reason_classified_witness :
    ("Contains placeholder text" = "Empty value" ∨
     ("Contains placeholder text" : String) = "Contains placeholder text") :=
  audit_reason_classified [("A", ⟨"A", "todo", none⟩)] "A" "todo"
    "Contains placeholder text" (by decide)

/-- C5: a sync run with no missing keys, or whose collaborator declines,
makes no backup, appends nothing and returns the no-changes flag. -/
theorem sync_no_changes :
    ∀ inp : SyncInput,
      (find_missing_keys inp.example_entries inp.env_entries = [] ∨
        inp.confirm = false) →
      sync inp = ⟨false, none, false⟩ := by
  intro inp h
  unfold sync
  by_cases he : inp.example_exists
  · rcases h with h | h
    · simp [he, h]
    · by_cases hm : (find_missing_keys inp.example_entries inp.env_entries).isEmpty <;>
        simp [he, h, hm]
  · simp [he]

/-- C5 witness: the declined sample run has no effects. -/
theorem sync_no_changes_witness : sync sampleDeclinedRun = ⟨false, none, false⟩ :=
  sync_no_changes sampleDeclinedRun (Or.inr rfl)

/-- C6: the missing-keys list holds exactly the template keys absent from
the actual map; when the template keys are distinct it has no duplicates,
and it is always an order-preserving sublist of the template keys. -/
theorem find_missing_keys_spec :
    ∀ (tmpl env : List (String × EnvEntry)),
      (tmpl.map Prod.fst).Nodup →
      (∀ k, k ∈ find_missing_keys tmpl env ↔
        (k ∈ tmpl.map Prod.fst ∧ containsKey env k = false)) ∧
      (find_missing_keys tmpl env).Nodup ∧
      List.Sublist (find_missing_keys tmpl env) (tmpl.map Prod.fst) := by
  intro tmpl env hnd
  refine ⟨fun k => ?_, hnd.filter _, List.filter_sublist _⟩
  unfold find_missing_keys
  simp [List.mem_filter]

/-- C6 witness: on the sample maps the missing-keys list is duplicate-free,
and `PORT` is reported missing exactly because it is a template key not
present in the actual map. -/
theorem find_missing_keys_spec_witness :
    (find_missing_keys sampleTemplate sampleActual).Nodup ∧
    ("PORT" ∈ find_missing_keys sampleTemplate sampleActual ↔
      ("PORT" ∈ sampleTemplate.map Prod.fst ∧ containsKey sampleActual "PORT" = false)) :=
  ⟨(find_missing_keys_spec sampleTemplate sampleActual (by decide)).2.1,
   (find_missing_keys_spec sampleTemplate sampleActual (by decide)).1 "PORT"⟩

lemma prompt_for_value_valid (attempts : List String) (vt : Option String)
    (v : String) (h : prompt_for_value attempts vt = some v) :
    (validate_value v vt).is_valid = true := by
  unfold prompt_for_value at h
  have hfind := List.find?_some (p := fun w => (validate_value w vt).is_valid) h
  simpa using hfind

lemma collect_values_valid :
    ∀ (missing : List String) (ex : List (String × EnvEntry))
      (rs : String → List String) (pairs : List (String × String)) (k v : String),
      collect_values missing ex rs = some pairs → (k, v) ∈ pairs →
      (validate_value v (hintFor ex k)).is_valid = true := by
  intro missing
  induction missing with
  | nil =>
    intro ex rs pairs k v h hm
    unfold collect_values at h
    cases h
    simp at hm
  | cons k0 ks ih =>
    intro ex rs pairs k v h hm
    unfold collect_values at h
    cases hp : prompt_for_value (rs k0) (hintFor ex k0) with
    | none => rw [hp] at h; simp at h
    | some v0 =>
      cases hc : collect_values ks ex rs with
      | none => rw [hp, hc] at h; simp at h
      | some rest =>
        rw [hp, hc] at h
        simp only [Option.some.injEq] at h
        subst h
        rcases List.mem_cons.mp hm with heq | htail
        · cases heq
          exact prompt_for_value_valid (rs k0) (hintFor ex k0) v hp
        · exact ih ex rs rest k v hc htail

/-- C4: in a completed sync run every appended (key, value) pair carries a
value that `validate_value` accepts for the hint extracted from that key's
template comment: the prompt loop only ever hands back validated values. -/
theorem sync_appended_validated :
    ∀ (inp : SyncInput) (pairs : List (String × String)) (k v : String),
      (sync inp).appended = some pairs → (k, v) ∈ pairs →
      (validate_value v (hintFor inp.example_entries k)).is_valid = true := by
  intro inp pairs k v h hm
  unfold sync at h
  by_cases he : inp.example_exists
  · simp only [he, Bool.not_true] at h
    by_cases hmiss : (find_missing_keys inp.example_entries inp.env_entries).isEmpty
    · simp [hmiss] at h
    · by_cases hcf : inp.confirm
      · simp only [Bool.false_eq_true, if_false, hmiss, hcf, Bool.not_true] at h
        cases hc : collect_values (find_missing_keys inp.example_entries inp.env_entries)
            inp.example_entries inp.responses with
        | none => rw [hc] at h; simp at h
        | some ps =>
          rw [hc] at h
          simp only [Option.some.injEq] at h
          subst h
          exact collect_values_valid _ inp.example_entries inp.responses ps k v hc hm
      · simp [hmiss, hcf] at h
  · simp [he] at h

/-- C4 witness: the sample run appends `PORT = 8080`, and that value indeed
validates against the template's `(int)` hint. -/
theorem sync_appended_validated_witness :
    (validate_value "8080" (hintFor sampleSyncRun.example_entries "PORT")).is_valid = true :=
  sync_appended_validated sampleSyncRun [("PORT", "8080")] "PORT" "8080"
    (by decide) (by decide)

lemma splitUnderscore_ne_nil : ∀ cs : List Char, splitUnderscore cs ≠ [] := by
  intro cs
  induction cs with
  | nil => simp [splitUnderscore]
  | cons c cs ih =>
    unfold splitUnderscore
    by_cases h : c = '_'
    · simp [h]
    · simp only [h, if_false]
      cases hs : splitUnderscore cs with
      | nil => exact absurd hs ih
      | cons g gs => simp

lemma pyIntTail_split : ∀ (cs g : List Char) (gs : List (List Char)),
    splitUnderscore cs = g :: gs →
    pyIntTail cs = (g.all Char.isDigit &&
      gs.all (fun h => !h.isEmpty && h.all Char.isDigit)) := by
  intro cs
  induction cs using pyIntTail.induct with
  | case1 =>
    intro g gs hs
    simp only [splitUnderscore, List.cons.injEq] at hs
    obtain ⟨hg, hgs⟩ := hs
    subst hg; subst hgs
    simp [pyIntTail]
  | case2 =>
    intro g gs hs
    have h1 : splitUnderscore ['_'] = [[], []] := by simp [splitUnderscore]
    rw [h1] at hs
    injection hs with hg hgs
    subst hg; subst hgs
    simp [pyIntTail]
  | case3 d ds ih =>
    intro g gs hs
    have h1 : splitUnderscore ('_' :: d :: ds) = [] :: splitUnderscore (d :: ds) := by
      simp [splitUnderscore]
    rw [h1] at hs
    injection hs with hg hgs
    subst hg; subst hgs
    have hlhs : pyIntTail ('_' :: d :: ds) = (d.isDigit && pyIntTail ds) := by
      conv_lhs => rw [pyIntTail.eq_def]
      simp
    rw [hlhs]
    by_cases hd : d = '_'
    · subst hd
      have h2 : splitUnderscore ('_' :: ds) = [] :: splitUnderscore ds := by
        simp [splitUnderscore]
      have h3 : ('_').isDigit = false := by decide
      simp [h2, h3]
    · cases hsd : splitUnderscore ds with
      | nil => exact absurd hsd (splitUnderscore_ne_nil ds)
      | cons g' gs' =>
        have h2 : splitUnderscore (d :: ds) = (d :: g') :: gs' := by
          simp [splitUnderscore, hd, hsd]
        have htail := ih g' gs' hsd
        rw [h2, htail]
        simp [Bool.and_assoc]
  | case4 c cs hc ih =>
    intro g gs hs
    cases hsd : splitUnderscore cs with
    | nil => exact absurd hsd (splitUnderscore_ne_nil cs)
    | cons g' gs' =>
      have h2 : splitUnderscore (c :: cs) = (c :: g') :: gs' := by
        simp [splitUnderscore, hc, hsd]
      rw [h2] at hs
      injection hs with hg hgs
      subst hg; subst hgs
      have htail := ih g' gs' hsd
      have hlhs : pyIntTail (c :: cs) = (c.isDigit && pyIntTail cs) := by
        conv_lhs => rw [pyIntTail.eq_def]
        simp [hc]
      rw [hlhs, htail]
      simp [Bool.and_assoc]

lemma pyIntCore_split : ∀ cs : List Char,
    pyIntCore cs =
      (splitUnderscore cs).all (fun h => !h.isEmpty && h.all Char.isDigit) := by
  intro cs
  cases cs with
  | nil => simp [pyIntCore, splitUnderscore]
  | cons c cs =>
    by_cases hc : c = '_'
    · subst hc
      have h1 : splitUnderscore ('_' :: cs) = [] :: splitUnderscore cs := by
        simp [splitUnderscore]
      have h3 : ('_').isDigit = false := by decide
      simp [pyIntCore, h1, h3]
    · cases hsd : splitUnderscore cs with
      | nil => exact absurd hsd (splitUnderscore_ne_nil cs)
      | cons g gs =>
        have h2 : splitUnderscore (c :: cs) = (c :: g) :: gs := by
          simp [splitUnderscore, hc, hsd]
        have htail := pyIntTail_split cs g gs hsd
        simp [pyIntCore, h2, htail, Bool.and_assoc]

lemma pyIntAccepts_eq_spec : ∀ v : String, pyIntAccepts v = specIntAmended v := by
  intro v
  unfold pyIntAccepts specIntAmended
  exact pyIntCore_split _

/-- C7 counterexample: Python `int` accepts `1_000` (single underscores
between digits), so `validate_int` calls it valid, while the claim's
base-10-integer-with-optional-sign syntax rejects it. -/
theorem validate_int_claim_counterexample :
    (validate_int "1_000").is_valid = true ∧ specIntClaim "1_000" = false := by
  decide

/-- C7 amended: `validate_int value` is valid exactly when the value, after
stripping surrounding whitespace, is an optional sign followed by decimal
digit groups separated by single underscores; when invalid the message is
exactly the quoted value followed by the fixed text. -/
theorem validate_int_amended :
    ∀ v : String,
      validate_int v =
        { is_valid := specIntAmended v,
          error_message :=
            if specIntAmended v then none
            else some ("'" ++ v ++ "' is not a valid integer") } := by
  intro v
  simp only [validate_int, ← pyIntAccepts_eq_spec]
  by_cases hb : pyIntAccepts v <;> simp [hb]

lemma findParenToken_cons (c : Char) (cs : List Char) :
    findParenToken (c :: cs) =
      match tokenAt (c :: cs) 0 with
      | some w => some w
      | none => findParenToken cs := by
  by_cases hc : c = '('
  · subst hc
    cases htw : cs.takeWhile isWordAscii with
    | nil => simp [findParenToken, tokenAt, htw]
    | cons w ws =>
      cases hdr : cs.drop (ws.length + 1) with
      | nil => simp [findParenToken, tokenAt, htw, hdr]
      | cons d rest =>
        by_cases hd : d = ')'
        · simp [findParenToken, tokenAt, htw, hdr, hd]
        · simp [findParenToken, tokenAt, htw, hdr, hd]
  · simp [findParenToken, tokenAt, hc]

lemma findParenToken_eq_first : ∀ cs : List Char,
    findParenToken cs = firstParenToken cs := by
  intro cs
  induction cs with
  | nil => simp [findParenToken, firstParenToken]
  | cons c cs ih =>
    rw [findParenToken_cons]
    unfold firstParenToken
    have hl : (c :: cs).length = cs.length + 1 := rfl
    rw [hl, List.range_succ_eq_map]
    have hfun : tokenAt (c :: cs) ∘ Nat.succ = tokenAt cs := funext fun i => rfl
    cases ht0 : tokenAt (c :: cs) 0 with
    | some w =>
      rw [List.findSome?_cons_of_isSome _ (by simp [ht0])]
      simp [ht0]
    | none =>
      rw [List.findSome?_cons_of_isNone _ (by simp [ht0])]
      rw [List.findSome?_map, hfun]
      exact ih

/-- C3 counterexample: on the comment `(INT)` the extractor returns the
token contents verbatim, `INT`, not the lowercase `int` the claim
promises. -/
theorem extract_validation_type_counterexample :
    extract_validation_type (some "(INT)") = some "INT" ∧
    extract_validation_type (some "(INT)") ≠ some "int" := by
  decide

/-- C3 amended: `extract_validation_type` returns the contents of the
first parenthesized word token of the comment unchanged in case — not
lowercased — and absent when the comment is absent or has no such token. -/
theorem extract_validation_type_amended :
    extract_validation_type none = none ∧
    (∀ s : String, firstParenToken s.data = none →
      extract_validation_type (some s) = none) ∧
    (∀ (s : String) (w : List Char), firstParenToken s.data = some w →
      extract_validation_type (some s) = some ⟨w⟩) := by
  refine ⟨rfl, fun s h => ?_, fun s w h => ?_⟩
  · unfold extract_validation_type
    by_cases he : s.data.isEmpty
    · simp [he]
    · rw [← findParenToken_eq_first] at h
      simp [he, h]
  · unfold extract_validation_type
    by_cases he : s.data.isEmpty
    · rw [List.isEmpty_iff] at he
      rw [← findParenToken_eq_first, he] at h
      simp [findParenToken] at h
    · rw [← findParenToken_eq_first] at h
      simp [he, h]

/-- C3 witness: the first parenthesized token of `use (URL) here` is
extracted verbatim as `URL`. -/
theorem extract_validation_type_amended_witness :
    extract_validation_type (some "use (URL) here") = some "URL" :=
  extract_validation_type_amended.2.2 "use (URL) here" "URL".data (by decide)

lemma keyStart_not_ws (c : Char) (h : isKeyStart c = true) : isPyWs c = false := by
  cases hw : isPyWs c
  · rfl
  · exfalso
    have hcs : ((((c = ' ' ∨ c = '\t') ∨ c = '\n') ∨ c = '\x0d') ∨ c = '\x0b') ∨
        c = '\x0c' := by
      simpa [isPyWs] using hw
    rcases hcs with ((((rfl | rfl) | rfl) | rfl) | rfl) | rfl <;> exact absurd h (by decide)

lemma keyStart_word (c : Char) (h : isKeyStart c = true) : isWordAscii c = true := by
  rcases Bool.or_eq_true _ _ |>.mp h with ha | hu
  · simp [isWordAscii, ha]
  · simp [isWordAscii, hu]

lemma takeWhile_append_of_all {p : Char → Bool} :
    ∀ (l1 l2 : List Char), (∀ x ∈ l1, p x = true) →
      (l1 ++ l2).takeWhile p = l1 ++ l2.takeWhile p := by
  intro l1
  induction l1 with
  | nil => intro l2 h; simp
  | cons a l1 ih =>
    intro l2 h
    have ha : p a = true := h a (List.mem_cons_self a l1)
    simp only [List.cons_append, List.takeWhile_cons, ha, if_true]
    rw [ih l2 (fun x hx => h x (List.mem_cons_of_mem a hx))]

lemma dropWhile_append_of_all {p : Char → Bool} :
    ∀ (l1 l2 : List Char), (∀ x ∈ l1, p x = true) →
      (l1 ++ l2).dropWhile p = l2.dropWhile p := by
  intro l1
  induction l1 with
  | nil => intro l2 h; simp
  | cons a l1 ih =>
    intro l2 h
    have ha : p a = true := h a (List.mem_cons_self a l1)
    simp only [List.cons_append, List.dropWhile_cons, ha, if_true]
    exact ih l2 (fun x hx => h x (List.mem_cons_of_mem a hx))

lemma splitFirst_none_of_not_mem (sep : Char) :
    ∀ cs : List Char, (∀ c ∈ cs, ¬c = sep) → splitFirst sep cs = none := by
  intro cs
  induction cs with
  | nil => intro h; rfl
  | cons c cs ih =>
    intro h
    unfold splitFirst
    rw [if_neg (h c (List.mem_cons_self c cs))]
    rw [ih (fun x hx => h x (List.mem_cons_of_mem c hx))]

lemma splitLines_no_newline : ∀ cs : List Char,
    (∀ c ∈ cs, ¬c = '\n') → splitLines cs = [cs] := by
  intro cs
  induction cs with
  | nil => intro h; rfl
  | cons c cs ih =>
    intro h
    unfold splitLines
    rw [if_neg (h c (List.mem_cons_self c cs))]
    rw [ih (fun x hx => h x (List.mem_cons_of_mem c hx))]

lemma parseLine_roundtrip (c : Char) (ck vd : List Char)
    (hk1 : isKeyStart c = true) (hk2 : ∀ x ∈ ck, isWordAscii x = true)
    (hnh : splitFirst '#' vd = none)
    (hld : vd.dropWhile isPyWs = vd)
    (hrs : rstripWs vd = vd)
    (hqw : isQuoteWrapped vd = false) :
    parseLine ((c :: ck) ++ '=' :: vd) = some ⟨⟨c :: ck⟩, ⟨vd⟩, none⟩ := by
  have hcw : isWordAscii c = true := keyStart_word c hk1
  have hcnw : isPyWs c = false := keyStart_not_ws c hk1
  have hweq : isWordAscii '=' = false := by decide
  have h1 : ((c :: ck) ++ '=' :: vd).dropWhile isPyWs = c :: (ck ++ '=' :: vd) := by
    simp [List.cons_append, List.dropWhile_cons, hcnw]
  have htw : (c :: (ck ++ '=' :: vd)).takeWhile isWordAscii = c :: ck := by
    rw [List.takeWhile_cons]
    simp only [hcw, if_true]
    rw [takeWhile_append_of_all ck ('=' :: vd) hk2, List.takeWhile_cons]
    simp [hweq]
  have hdw : ((c :: (ck ++ '=' :: vd)).dropWhile isWordAscii).dropWhile isPyWs =
      '=' :: vd := by
    rw [List.dropWhile_cons]
    simp only [hcw, if_true]
    rw [dropWhile_append_of_all ck ('=' :: vd) hk2, List.dropWhile_cons]
    simp [hweq, List.dropWhile_cons, show isPyWs '=' = false from by decide]
  have hsh : splitHash vd = (vd, none) := by
    unfold splitHash
    rw [hnh]
  have hsv : stripWs vd = vd := by
    unfold stripWs lstripWs
    rw [hld, hrs]
  have huq : unquoteChars vd = vd := by
    unfold unquoteChars
    rw [hqw]
    simp
  unfold parseLine
  rw [h1]
  simp only [hk1, if_true, htw, hdw, hld, hsh, hsv, huq]

lemma word_ne_newline (x : Char) (h : isWordAscii x = true) : ¬x = '\n' := by
  intro hx
  subst hx
  exact absurd h (by decide)

/-- C2 counterexample: the value consisting of `hi` wrapped in double
quotes needs no quoting under `format_entry`'s rule, yet parsing the
formatted line strips the quotes, so the round trip loses them. -/
theorem format_parse_counterexample :
    needsQuoting "\"hi\"" = false ∧
    parse_file (format_entry "K" "\"hi\"") =
      [("K", { key := "K", value := "hi", comment := none })] ∧
    ("hi" : String) ≠ "\"hi\"" := by
  decide

/-- C2 amended: for every well-formed key and every value that needs no
quoting, contains no newline or carriage return, neither starts nor ends
with whitespace, and is not wrapped in a matching pair of quotes, parsing
the single line produced by `format_entry` yields exactly one entry mapping
the key to the original value. -/
theorem format_parse_roundtrip :
    ∀ k v : String, keyWellFormed k = true → needsQuoting v = false →
      (∀ x ∈ v.data, ¬x = '\n') →
      (∀ x ∈ v.data, ¬x = '\x0d') →
      v.data.dropWhile isPyWs = v.data →
      rstripWs v.data = v.data →
      isQuoteWrapped v.data = false →
      parse_file (format_entry k v) = [(k, ⟨k, v, none⟩)] := by
  intro k v hk hnq hnl _hcr hld hrs hqw
  have hfmt : format_entry k v = k ++ "=" ++ v := by
    unfold format_entry
    rw [hnq]
    simp
  rw [hfmt]
  obtain ⟨kd⟩ := k
  obtain ⟨vd⟩ := v
  cases kd with
  | nil => exact absurd hk (by decide)
  | cons c ck =>
    have hk' : (isKeyStart c && ck.all isWordAscii) = true := hk
    rw [Bool.and_eq_true] at hk'
    obtain ⟨hk1, hk2⟩ := hk'
    have hk2' : ∀ x ∈ ck, isWordAscii x = true := fun x hx =>
      List.all_eq_true.mp hk2 x hx
    have hdata : (String.mk (c :: ck) ++ "=" ++ String.mk vd).data =
        (c :: ck) ++ '=' :: vd := by
      simp [String.data_append]
    have hnn : ∀ x ∈ (c :: ck) ++ '=' :: vd, ¬x = '\n' := by
      intro x hx
      rcases List.mem_append.mp hx with hx | hx
      · rcases List.mem_cons.mp hx with rfl | hx
        · exact word_ne_newline x (keyStart_word x hk1)
        · exact word_ne_newline x (hk2' x hx)
      · rcases List.mem_cons.mp hx with rfl | hx
        · decide
        · exact hnl x hx
    have hnh : splitFirst '#' vd = none := by
      apply splitFirst_none_of_not_mem
      intro x hx hcon
      subst hcon
      have : vd.any (fun ch => ch = ' ' || ch = '#' || ch = '$' || ch = '\\') = true :=
        List.any_eq_true.mpr ⟨'#', hx, by decide⟩
      rw [show needsQuoting ⟨vd⟩ = vd.any
          (fun ch => ch = ' ' || ch = '#' || ch = '$' || ch = '\\') from rfl] at hnq
      rw [this] at hnq
      cases hnq
    unfold parse_file
    rw [hdata, splitLines_no_newline _ hnn]
    rw [List.foldl_cons]
    rw [parseLine_roundtrip c ck vd hk1 hk2' hnh hld hrs hqw]
    rfl

/-- C2 witness: the round trip holds at the key `PORT` with value `3000`. -/
theorem format_parse_roundtrip_witness :
    parse_file (format_entry "PORT" "3000") = [("PORT", ⟨"PORT", "3000", none⟩)] :=
  format_parse_roundtrip "PORT" "3000" (by decide) (by decide) (by decide)
    (by decide) (by decide) (by decide) (by decide)

lemma mem_of_mem_rstripWs {x : Char} {l : List Char} (h : x ∈ rstripWs l) : x ∈ l := by
  unfold rstripWs at h
  rw [List.mem_reverse] at h
  exact List.mem_reverse.mp ((List.dropWhile_sublist isPyWs).subset h)

lemma mem_of_mem_stripWs {x : Char} {l : List Char} (h : x ∈ stripWs l) : x ∈ l := by
  unfold stripWs lstripWs at h
  exact (List.dropWhile_sublist isPyWs).subset (mem_of_mem_rstripWs h)

lemma mem_of_mem_unquoteChars {x : Char} {l : List Char}
    (h : x ∈ unquoteChars l) : x ∈ l := by
  unfold unquoteChars at h
  by_cases hq : isQuoteWrapped l
  · rw [if_pos hq] at h
    exact (List.drop_sublist 1 l).subset ((List.dropLast_sublist _).subset h)
  · rwa [if_neg hq] at h

lemma splitFirst_none_forall (sep : Char) :
    ∀ cs : List Char, splitFirst sep cs = none → ∀ c ∈ cs, ¬c = sep := by
  intro cs
  induction cs with
  | nil => intro _ c hc; cases hc
  | cons c0 cs ih =>
    intro h c hc
    unfold splitFirst at h
    by_cases h0 : c0 = sep
    · rw [if_pos h0] at h; cases h
    · rw [if_neg h0] at h
      rcases List.mem_cons.mp hc with rfl | hc
      · exact h0
      · cases hrec : splitFirst sep cs with
        | none => exact ih hrec c hc
        | some p => rw [hrec] at h; cases h

lemma splitFirst_some_forall (sep : Char) :
    ∀ (cs a b : List Char), splitFirst sep cs = some (a, b) → ∀ c ∈ a, ¬c = sep := by
  intro cs
  induction cs with
  | nil => intro a b h; cases h
  | cons c0 cs ih =>
    intro a b h c hc
    unfold splitFirst at h
    by_cases h0 : c0 = sep
    · rw [if_pos h0] at h
      injection h with h1
      injection h1 with ha hb
      subst ha
      cases hc
    · rw [if_neg h0] at h
      cases hrec : splitFirst sep cs with
      | none => rw [hrec] at h; cases h
      | some p =>
        obtain ⟨a', b'⟩ := p
        rw [hrec] at h
        injection h with h1
        injection h1 with ha hb
        subst ha
        rcases List.mem_cons.mp hc with rfl | hc
        · exact h0
        · exact ih a' b' hrec c hc

lemma splitHash_fst_no_hash (rest : List Char) :
    ∀ x ∈ (splitHash rest).1, ¬x = '#' := by
  intro x hx
  unfold splitHash at hx
  cases hsf : splitFirst '#' rest with
  | none =>
    rw [hsf] at hx
    exact splitFirst_none_forall '#' rest hsf x hx
  | some p =>
    obtain ⟨a, b⟩ := p
    rw [hsf] at hx
    exact splitFirst_some_forall '#' rest a b hsf x (mem_of_mem_rstripWs hx)

lemma parseLine_value_no_hash (line : List Char) (e : EnvEntry)
    (h : parseLine line = some e) : ∀ x ∈ e.value.data, ¬x = '#' := by
  unfold parseLine at h
  split at h
  · cases h
  · split at h
    · split at h
      · cases h
      · split at h
        · injection h with h1
          subst h1
          intro x hx
          exact splitHash_fst_no_hash _ x
            (mem_of_mem_stripWs (mem_of_mem_unquoteChars hx))
        · cases h
    · cases h

lemma mem_insertEntry (m : List (String × EnvEntry)) (k : String) (e : EnvEntry)
    (q : String × EnvEntry) (hq : q ∈ insertEntry m k e) : q = (k, e) ∨ q ∈ m := by
  induction m with
  | nil =>
    unfold insertEntry at hq
    rcases List.mem_cons.mp hq with rfl | hq
    · left; rfl
    · cases hq
  | cons p0 rest ih =>
    obtain ⟨k0, e0⟩ := p0
    unfold insertEntry at hq
    by_cases h0 : k0 = k
    · rw [if_pos h0] at hq
      rcases List.mem_cons.mp hq with rfl | hq
      · left; rfl
      · right; exact List.mem_cons_of_mem _ hq
    · rw [if_neg h0] at hq
      rcases List.mem_cons.mp hq with rfl | hq
      · right; exact List.mem_cons_self _ _
      · rcases ih hq with h | h
        · left; exact h
        · right; exact List.mem_cons_of_mem _ h

lemma parse_fold_no_hash :
    ∀ (lines : List (List Char)) (m : List (String × EnvEntry)),
      (∀ q ∈ m, ∀ x ∈ q.2.value.data, ¬x = '#') →
      ∀ q ∈ lines.foldl
          (fun m line =>
            match parseLine line with
            | some e => insertEntry m e.key e
            | none => m) m,
        ∀ x ∈ q.2.value.data, ¬x = '#' := by
  intro lines
  induction lines with
  | nil => intro m hm q hq; exact hm q hq
  | cons line ls ih =>
    intro m hm q hq
    rw [List.foldl_cons] at hq
    refine ih _ ?_ q hq
    intro q' hq'
    cases hpl : parseLine line with
    | none =>
      rw [hpl] at hq'
      exact hm q' hq'
    | some e0 =>
      rw [hpl] at hq'
      rcases mem_insertEntry m e0.key e0 q' hq' with rfl | hq'
      · exact parseLine_value_no_hash line e0 hpl
      · exact hm q' hq'

/-- C10: every entry produced by the parser has a value free of `#` — the
value group of the line pattern stops before any `#`, and stripping and
unquoting only remove characters — so no parsed value ever contains `#`. -/
theorem parse_value_no_hash :
    ∀ (text : String) (k : String) (e : EnvEntry),
      (k, e) ∈ parse_file text → e.value.data.all (fun x => x != '#') = true := by
  intro text k e hm
  rw [List.all_eq_true]
  intro x hx
  have hne := parse_fold_no_hash (splitLines text.data) []
    (by intro q hq; cases hq) (k, e) hm x hx
  simpa using hne

/-- C10 witness: the value parsed for `A` from `A=1 # c` contains no
hash character. -/
theorem parse_value_no_hash_witness :
    ("1" : String).data.all (fun x => x != '#') = true :=
  parse_value_no_hash "A=1 # c" "A" ⟨"A", "1", some "c"⟩ (by decide)
